import Mathlib

/-!
Shallow embedding of the redaction logic of the `readact-demo` repository and
proofs about it. The byte-level primitives (UTF-8, SHA-256, HMAC, base64)
model the Python standard-library calls the sources make; `remove_pii`
follows `redactdemo/comprehend.py`; `hash_pii` follows
`redactdemo/presidio_redact.py` and `redactdemo/gliner.py`; the request
construction and key handling follow `redactdemo/dlp.py`. Definitions whose
doc comment starts with "Modelled from the spec" stand for behaviour of the
external DLP service that the repository only configures.
-/

set_option maxRecDepth 40000

namespace Redact

/-- UTF-8 encoding of a sequence of characters, as byte values
(the semantics of Python `str.encode()`). -/
def utf8Bytes : List Char → List Nat
  | [] => []
  | c :: cs =>
    let n := c.toNat
    (if n < 128 then [n]
     else if n < 2048 then [192 + n / 64, 128 + n % 64]
     else if n < 65536 then [224 + n / 4096, 128 + (n / 64) % 64, 128 + n % 64]
     else [240 + n / 262144, 128 + (n / 4096) % 64, 128 + (n / 64) % 64, 128 + n % 64])
    ++ utf8Bytes cs

/-- Truncation to a 32-bit word. -/
def w32 (n : Nat) : Nat := n % 4294967296

/-- Right rotation of a 32-bit word by `n` bits. -/
def rotr (n x : Nat) : Nat := x / 2 ^ n + (x % 2 ^ n) * 2 ^ (32 - n)

/-- Right shift of a 32-bit word by `n` bits. -/
def shr (n x : Nat) : Nat := x / 2 ^ n

/-- Bitwise complement of a 32-bit word. -/
def bnot32 (x : Nat) : Nat := 4294967295 - x

/-- SHA-256 `Ch` function. -/
def ch (x y z : Nat) : Nat := (x &&& y) ^^^ (bnot32 x &&& z)

/-- SHA-256 `Maj` function. -/
def maj (x y z : Nat) : Nat := (x &&& y) ^^^ (x &&& z) ^^^ (y &&& z)

/-- SHA-256 big sigma-0. -/
def bigSigma0 (x : Nat) : Nat := rotr 2 x ^^^ rotr 13 x ^^^ rotr 22 x

/-- SHA-256 big sigma-1. -/
def bigSigma1 (x : Nat) : Nat := rotr 6 x ^^^ rotr 11 x ^^^ rotr 25 x

/-- SHA-256 small sigma-0. -/
def smallSigma0 (x : Nat) : Nat := rotr 7 x ^^^ rotr 18 x ^^^ shr 3 x

/-- SHA-256 small sigma-1. -/
def smallSigma1 (x : Nat) : Nat := rotr 17 x ^^^ rotr 19 x ^^^ shr 10 x

/-- The SHA-256 round constants (FIPS 180-4), written in decimal. -/
def sha256K : List Nat :=
  [1116352408, 1899447441, 3049323471, 3921009573, 961987163,
   1508970993, 2453635748, 2870763221, 3624381080, 310598401,
   607225278, 1426881987, 1925078388, 2162078206, 2614888103,
   3248222580, 3835390401, 4022224774, 264347078, 604807628,
   770255983, 1249150122, 1555081692, 1996064986, 2554220882,
   2821834349, 2952996808, 3210313671, 3336571891, 3584528711,
   113926993, 338241895, 666307205, 773529912, 1294757372,
   1396182291, 1695183700, 1986661051, 2177026350, 2456956037,
   2730485921, 2820302411, 3259730800, 3345764771, 3516065817,
   3600352804, 4094571909, 275423344, 430227734, 506948616,
   659060556, 883997877, 958139571, 1322822218, 1537002063,
   1747873779, 1955562222, 2024104815, 2227730452, 2361852424,
   2428436474, 2756734187, 3204031479, 3329325298]

/-- Working state of the SHA-256 compression function. -/
structure Hs where
  a : Nat
  b : Nat
  c : Nat
  d : Nat
  e : Nat
  f : Nat
  g : Nat
  h : Nat

/-- The SHA-256 initial hash value (FIPS 180-4), written in decimal. -/
def sha256H0 : Hs :=
  ⟨1779033703, 3144134277, 1013904242, 2773480762,
   1359893119, 2600822924, 528734635, 1541459225⟩

/-- Big-endian eight-byte encoding of a natural number. -/
def be8 (n : Nat) : List Nat :=
  [n / 2 ^ 56 % 256, n / 2 ^ 48 % 256, n / 2 ^ 40 % 256, n / 2 ^ 32 % 256,
   n / 2 ^ 24 % 256, n / 2 ^ 16 % 256, n / 2 ^ 8 % 256, n % 256]

/-- Big-endian four-byte encoding of a 32-bit word. -/
def be4 (n : Nat) : List Nat := [n / 2 ^ 24 % 256, n / 2 ^ 16 % 256, n / 2 ^ 8 % 256, n % 256]

/-- SHA-256 message padding: append `0x80`, zeros, and the 64-bit bit length. -/
def sha256Pad (msg : List Nat) : List Nat :=
  msg ++ 128 :: List.replicate ((119 - msg.length % 64) % 64) 0 ++ be8 (msg.length * 8)

/-- Group a byte list into big-endian 32-bit words (four bytes at a time). -/
def toWords : List Nat → List Nat
  | b0 :: b1 :: b2 :: b3 :: rest => (((b0 * 256 + b1) * 256 + b2) * 256 + b3) :: toWords rest
  | _ => []

/-- Extend the reversed message-schedule word list by `n` further words. -/
def extendRev (rw : List Nat) : Nat → List Nat
  | 0 => rw
  | n + 1 =>
    let g := fun i => rw.getD i 0
    extendRev (w32 (smallSigma1 (g 1) + g 6 + smallSigma0 (g 14) + g 15) :: rw) n

/-- One round of the SHA-256 compression function. -/
def sha256Round (st : Hs) (kw : Nat × Nat) : Hs :=
  let t1 := w32 (st.h + bigSigma1 st.e + ch st.e st.f st.g + kw.1 + kw.2)
  let t2 := w32 (bigSigma0 st.a + maj st.a st.b st.c)
  ⟨w32 (t1 + t2), st.a, st.b, st.c, w32 (st.d + t1), st.e, st.f, st.g⟩

/-- Process one 64-byte chunk of the padded message. -/
def sha256Chunk (h0 : Hs) (chunk : List Nat) : Hs :=
  let ws := (extendRev (toWords chunk).reverse 48).reverse
  let st := (sha256K.zip ws).foldl sha256Round h0
  ⟨w32 (h0.a + st.a), w32 (h0.b + st.b), w32 (h0.c + st.c), w32 (h0.d + st.d),
   w32 (h0.e + st.e), w32 (h0.f + st.f), w32 (h0.g + st.g), w32 (h0.h + st.h)⟩

/-- Split a byte list into 64-byte chunks, with a fuel argument for
structural recursion (the fuel is always sufficient when it is the list
length). -/
def chunks64F : Nat → List Nat → List (List Nat)
  | _, [] => []
  | 0, _ :: _ => []
  | fuel + 1, a :: t => (a :: t).take 64 :: chunks64F fuel ((a :: t).drop 64)

/-- Split a byte list into 64-byte chunks. -/
def chunks64 (l : List Nat) : List (List Nat) := chunks64F l.length l

/-- The SHA-256 digest (32 bytes) of a byte message, as computed by Python
`hashlib.sha256`. -/
def sha256 (msg : List Nat) : List Nat :=
  let hf := (chunks64 (sha256Pad msg)).foldl sha256Chunk sha256H0
  be4 hf.a ++ be4 hf.b ++ be4 hf.c ++ be4 hf.d ++ be4 hf.e ++ be4 hf.f ++ be4 hf.g ++ be4 hf.h

/-- Lowercase hexadecimal digit for a value below 16. -/
def hexChar (n : Nat) : Char := if n < 10 then Char.ofNat (48 + n) else Char.ofNat (87 + n)

/-- Lowercase hexadecimal rendering of a byte list, as produced by
`.hexdigest()`. -/
def bytesToHex : List Nat → List Char
  | [] => []
  | b :: bs => hexChar (b / 16) :: hexChar (b % 16) :: bytesToHex bs

/-- Python `hashlib.sha256(...).hexdigest()` over a byte message. -/
def sha256Hex (msg : List Nat) : List Char := bytesToHex (sha256 msg)

/-- A lowercase hexadecimal digit. -/
def isHexDigitCh (c : Char) : Bool :=
  ('0' ≤ c && c ≤ '9') || ('a' ≤ c && c ≤ 'f')

/-- The URL-safe base64 alphabet (RFC 4648 with `-` and `_`). -/
def b64UrlAlphabet : List Char :=
  "ABCDEFGHIJKLMNOPQRSTUVWXYZabcdefghijklmnopqrstuvwxyz0123456789-_".toList

/-- The standard base64 alphabet (RFC 4648 with `+` and `/`). -/
def b64StdAlphabet : List Char :=
  "ABCDEFGHIJKLMNOPQRSTUVWXYZabcdefghijklmnopqrstuvwxyz0123456789+/".toList

/-- Value of a six-bit group rendered in the URL-safe alphabet. -/
def b64UrlChar (n : Nat) : Char := b64UrlAlphabet.getD n 'A'

/-- Python `base64.urlsafe_b64encode` of a byte list, with `=` padding. -/
def urlsafeB64 : List Nat → List Char
  | b0 :: b1 :: b2 :: rest =>
    b64UrlChar (b0 / 4) :: b64UrlChar (b0 % 4 * 16 + b1 / 16) ::
      b64UrlChar (b1 % 16 * 4 + b2 / 64) :: b64UrlChar (b2 % 64) :: urlsafeB64 rest
  | [b0, b1] =>
    [b64UrlChar (b0 / 4), b64UrlChar (b0 % 4 * 16 + b1 / 16), b64UrlChar (b1 % 16 * 4), '=']
  | [b0] => [b64UrlChar (b0 / 4), b64UrlChar (b0 % 4 * 16), '=', '=']
  | [] => []

/-- Index of a character in a list, counting from `i`. -/
def charIndexFrom (c : Char) : List Char → Nat → Option Nat
  | [], _ => none
  | a :: t, i => if a = c then some i else charIndexFrom c t (i + 1)

/-- Index of a character in the standard base64 alphabet, if any. -/
def b64Val (c : Char) : Option Nat := charIndexFrom c b64StdAlphabet 0

/-- Decode successive four-character base64 groups, honouring `=` padding in
the final group. -/
def b64Groups : List Char → Option (List Nat)
  | [] => some []
  | c0 :: c1 :: c2 :: c3 :: rest =>
    match b64Val c0, b64Val c1 with
    | some v0, some v1 =>
      if c2 = '=' then
        if c3 = '=' ∧ rest = [] then some [v0 * 4 + v1 / 16] else none
      else
        match b64Val c2 with
        | some v2 =>
          if c3 = '=' then
            if rest = [] then some [v0 * 4 + v1 / 16, v1 % 16 * 16 + v2 / 4] else none
          else
            match b64Val c3 with
            | some v3 =>
              (b64Groups rest).map
                (fun bs =>
                  (v0 * 4 + v1 / 16) :: (v1 % 16 * 16 + v2 / 4) :: (v2 % 4 * 64 + v3) :: bs)
            | none => none
        | none => none
    | _, _ => none
  | _ => none

/-- Python `base64.b64decode` of a character string: characters outside the
alphabet and the padding are discarded, the remaining length must be a
multiple of four, and the groups are decoded. `none` models the raised
`binascii.Error`. -/
def b64decode (s : List Char) : Option (List Nat) :=
  let data := s.filter (fun c => (b64Val c).isSome || c = '=')
  if data.length % 4 = 0 then b64Groups data else none

/-- HMAC-SHA256 of a message under a key, per RFC 2104. -/
def hmacSha256 (key msg : List Nat) : List Nat :=
  let k0 := if 64 < key.length then sha256 key else key
  let kp := k0 ++ List.replicate (64 - k0.length) 0
  sha256 ((kp.map (fun b => b ^^^ 92)) ++ sha256 ((kp.map (fun b => b ^^^ 54)) ++ msg))

/-- A PII entity as returned by the Comprehend `detect_pii_entities` call:
the fields of the response record that `remove_pii` reads (`BeginOffset`,
`EndOffset`) plus the entity type tag. -/
structure Entity where
  beginOffset : Nat
  endOffset : Nat
  entityType : List Char
deriving DecidableEq

/-- Python slice `l[a:b]` for nonnegative indices (clamping semantics). -/
def pySlice (l : List α) (a b : Nat) : List α := (l.drop a).take (b - a)

/-- One loop iteration of `remove_pii`:
`redacted_text[:start] + tok(redacted_text[start:end]) + redacted_text[end:]`. -/
def redactStep (tok : List Char → List Char) (acc : List Char) (e : Entity) : List Char :=
  acc.take e.beginOffset ++ tok (pySlice acc e.beginOffset e.endOffset) ++ acc.drop e.endOffset

/-- Python `sorted(pii_entities, key=lambda e: e["BeginOffset"], reverse=True)`:
a stable sort, descending by begin offset (Python `sorted` is stable, and a
stable sort is determined uniquely by its comparison key, so insertion sort
computes the same list). -/
def sortEntitiesDesc (es : List Entity) : List Entity :=
  es.insertionSort (fun a b => b.beginOffset ≤ a.beginOffset)

instance : IsTotal Entity (fun a b => b.beginOffset ≤ a.beginOffset) :=
  ⟨fun a b => (Nat.le_total b.beginOffset a.beginOffset)⟩

instance : IsTrans Entity (fun a b => b.beginOffset ≤ a.beginOffset) :=
  ⟨fun _ _ _ hab hbc => le_trans hbc hab⟩

/-- The rewriting loop of `remove_pii` in `comprehend.py`, abstracted over
the token function applied to each replaced slice. -/
def remove_pii_with (tok : List Char → List Char) (text : List Char)
    (entities : List Entity) : List Char :=
  (sortEntitiesDesc entities).foldl (redactStep tok) text

/-- The token inserted by `remove_pii` in `comprehend.py`:
`base64.urlsafe_b64encode(hashlib.sha256(text_to_hash.encode()).digest()).decode()`. -/
def hashedToken (s : List Char) : List Char := urlsafeB64 (sha256 (utf8Bytes s))

/-- Function `remove_pii` of `comprehend.py`, given the entity list returned
by the external `detect_pii_entities` call. -/
def remove_pii (text : List Char) (entities : List Entity) : List Char :=
  remove_pii_with hashedToken text entities

/-- Reference splice: the redacted text described by the spec, built left to
right from the untouched gaps of the input interleaved with the tokens of
the (ascending, non-overlapping) spans. -/
def spliceFrom (tok : List Char → List Char) (text : List Char) (pos : Nat) :
    List Entity → List Char
  | [] => text.drop pos
  | e :: rest =>
    pySlice text pos e.beginOffset ++ tok (pySlice text e.beginOffset e.endOffset) ++
      spliceFrom tok text e.endOffset rest

/-- Spans listed in ascending order, pairwise separated, within bounds, and
starting no earlier than `pos`. -/
def wfSpans (len : Nat) : Nat → List Entity → Prop
  | _, [] => True
  | pos, e :: rest =>
    pos ≤ e.beginOffset ∧ e.beginOffset ≤ e.endOffset ∧ e.endOffset ≤ len ∧
      wfSpans len e.endOffset rest

/-- Two spans do not overlap. -/
def DisjointE (a b : Entity) : Prop :=
  a.endOffset ≤ b.beginOffset ∨ b.endOffset ≤ a.beginOffset

instance : DecidableRel DisjointE := fun _ _ =>
  inferInstanceAs (Decidable (_ ∨ _))

namespace Presidio

/-- Function `hash_pii` from `presidio_redact.py`: first eight characters of
the SHA-256 hex digest of the span text, wrapped as `[entity_type:hash]`. -/
def hash_pii (text entity_type : List Char) : List Char :=
  '[' :: (entity_type ++ ':' :: ((sha256Hex (utf8Bytes text)).take 8 ++ [']']))

end Presidio

namespace Gliner

/-- Function `hash_pii` from `gliner.py`: identical text to the one in
`presidio_redact.py`. -/
def hash_pii (text entity_type : List Char) : List Char :=
  '[' :: (entity_type ++ ':' :: ((sha256Hex (utf8Bytes text)).take 8 ++ [']']))

end Gliner

/-- The Google DLP likelihood levels. -/
inductive Likelihood
  | VERY_UNLIKELY
  | UNLIKELY
  | POSSIBLE
  | LIKELY
  | VERY_LIKELY
deriving DecidableEq

/-- The hotword rule dictionary built by `deidentify_with_crypto_hash`:
a regex, a fixed-likelihood adjustment, and a proximity window. -/
structure HotwordRule where
  hotwordRegex : List Char
  fixedLikelihood : Likelihood
  windowBefore : Nat
deriving DecidableEq

/-- The exclusion rule dictionary built by `deidentify_with_crypto_hash`:
excluded info types, a matching type, and a regex. -/
structure ExclusionRule where
  excludeInfoTypes : List (List Char)
  fullMatch : Bool
  regex : List Char
deriving DecidableEq

/-- An inspection rule: either a hotword rule or an exclusion rule. -/
inductive Rule
  | hotword (r : HotwordRule)
  | exclusion (r : ExclusionRule)
deriving DecidableEq

/-- The info types listed in `dlp.py`. -/
def dlpInfoTypes : List (List Char) :=
  ["PERSON_NAME".toList, "EMAIL_ADDRESS".toList, "PHONE_NUMBER".toList,
   "CREDIT_CARD_NUMBER".toList, "ORGANIZATION_NAME".toList,
   "FINANCIAL_ACCOUNT_NUMBER".toList, "GEOGRAPHIC_DATA".toList]

/-- Python `"|".join(xs)`. -/
def joinBar : List (List Char) → List Char
  | [] => []
  | [x] => x
  | x :: y :: xs => x ++ '|' :: joinBar (y :: xs)

/-- The case-insensitive wrapper built by the f-string `(?i)({pattern})(?-i)`. -/
def ciWrap (p : List Char) : List Char :=
  '(' :: '?' :: 'i' :: ')' :: '(' :: (p ++ ')' :: '(' :: '?' :: '-' :: 'i' :: [')'])

/-- The rule list built by `deidentify_with_crypto_hash` from the optional
hotword and exclusion lists (Python truthiness: `None` and `[]` both skip). -/
def buildRules (hotwords exclusions : Option (List (List Char))) : List Rule :=
  (match hotwords with
   | some (h :: hs) =>
     [Rule.hotword ⟨ciWrap (joinBar (h :: hs)), Likelihood.VERY_UNLIKELY, 1⟩]
   | _ => []) ++
  (match exclusions with
   | some (x :: xs) =>
     [Rule.exclusion ⟨dlpInfoTypes, true, ciWrap (joinBar (x :: xs))⟩]
   | _ => [])

/-- The crypto key part of the deidentify config: an unwrapped caller key
when a nonempty key is given, otherwise a transient DLP-generated key. -/
inductive CryptoKey
  | unwrapped (key : List Nat)
  | transient (name : List Char)
deriving DecidableEq

/-- The `crypto_hash_config` choice made by `deidentify_with_crypto_hash`
(Python truthiness: `None` and `b""` both select the transient key). -/
def buildCryptoKey (key_bytes : Option (List Nat)) : CryptoKey :=
  match key_bytes with
  | some (b :: bs) => CryptoKey.unwrapped (b :: bs)
  | _ => CryptoKey.transient ("dlp-generated-key".toList)

/-- The pure content of the `deidentify_content` request assembled by
`deidentify_with_crypto_hash` before the external service call. -/
structure DlpRequest where
  parent : List Char
  infoTypes : List (List Char)
  ruleSet : List Rule
  cryptoKey : CryptoKey
  item : List Char
deriving DecidableEq

/-- The request assembled by `deidentify_with_crypto_hash project_id text
key_bytes hotwords exclusions`; the external `dlp.deidentify_content` call
consumes exactly this data. -/
def deidentify_request (project_id text : List Char) (key_bytes : Option (List Nat))
    (hotwords exclusions : Option (List (List Char))) : DlpRequest :=
  { parent := "projects/".toList ++ project_id ++ "/locations/global".toList
    infoTypes := dlpInfoTypes
    ruleSet := buildRules hotwords exclusions
    cryptoKey := buildCryptoKey key_bytes
    item := text }

/-- ASCII lowercasing of one character (the case folding performed by the
`(?i)` regex flag on the ASCII patterns the program builds). -/
def lowerChar (c : Char) : Char :=
  if 'A' ≤ c ∧ c ≤ 'Z' then Char.ofNat (c.toNat + 32) else c

/-- Case-insensitive equality of two character strings. -/
def eqCI (a b : List Char) : Bool := a.map lowerChar == b.map lowerChar

/-- Split on `|`: current segment and the remaining segments. -/
def splitBarAux : List Char → List Char × List (List Char)
  | [] => ([], [])
  | c :: rest =>
    let p := splitBarAux rest
    if c = '|' then ([], p.1 :: p.2) else (c :: p.1, p.2)

/-- Split a string on `|` into its segments. -/
def splitBar (s : List Char) : List (List Char) := (splitBarAux s).1 :: (splitBarAux s).2

/-- Strip the `(?i)(` and `)(?-i)` wrapper from a pattern. -/
def stripCIWrap (pat : List Char) : List Char :=
  (pat.drop 5).take ((pat.drop 5).length - 6)

/-- Modelled from the spec: full-match semantics of the regexes the program
builds. Every regex assembled by `deidentify_with_crypto_hash` has the shape
`(?i)(w1|…|wn)(?-i)` with literal alternatives `wi`; such a regex fully
matches a string exactly when the string equals one alternative
case-insensitively. The general regex engine lives in the external DLP
service and is not part of the repository. -/
def ciAltsMatch (pat s : List Char) : Bool :=
  (splitBar (stripCIWrap pat)).any (fun p => eqCI p s)

/-- A finding produced by the external inspection: its start offset, quoted
text, info type and likelihood. -/
structure Finding where
  start : Nat
  quote : List Char
  infoType : List Char
  likelihood : Likelihood
deriving DecidableEq

/-- Modelled from the spec: the effect of one inspection rule on the finding
list, as documented for the DLP API and summarised in the spec. A hotword
rule sets the likelihood of every finding inside its proximity window to the
rule's `fixed_likelihood`; an exclusion rule drops every finding whose
quoted text fully matches its regex. Whether a finding is inside the
one-token window is decided by the external service's tokenisation, so it is
supplied as the oracle `inWindow` on the finding's start offset. -/
def applyRule (inWindow : Nat → Bool) (fs : List Finding) : Rule → List Finding
  | Rule.hotword hr =>
    fs.map (fun f => if inWindow f.start then { f with likelihood := hr.fixedLikelihood } else f)
  | Rule.exclusion er => fs.filter (fun f => !ciAltsMatch er.regex f.quote)

/-- Modelled from the spec: the rules of a rule set apply in order. -/
def applyRules (rules : List Rule) (inWindow : Nat → Bool)
    (fs : List Finding) : List Finding :=
  rules.foldl (applyRule inWindow) fs

/-- The likelihood adjustment the spec describes for hotword rules: reduce
by one severity level toward `VERY_UNLIKELY`. -/
def reduceOneLevel : Likelihood → Likelihood
  | Likelihood.VERY_UNLIKELY => Likelihood.VERY_UNLIKELY
  | Likelihood.UNLIKELY => Likelihood.VERY_UNLIKELY
  | Likelihood.POSSIBLE => Likelihood.UNLIKELY
  | Likelihood.LIKELY => Likelihood.POSSIBLE
  | Likelihood.VERY_LIKELY => Likelihood.LIKELY

/-- The `--hotwords` default of `main` in `dlp.py`: `["foo", "bar"]`. -/
def defaultHotwords : List (List Char) := ["foo".toList, "bar".toList]

/-- The hotword list `main` passes on: the caller's, or the argparse default
when the flag is absent. -/
def hotwordsArg : Option (List (List Char)) → List (List Char)
  | none => defaultHotwords
  | some hs => hs

/-- The error message printed for a key of invalid length. -/
def errKeyLength : List Char := "Error: Key must be 32 or 64 bytes".toList

/-- The error message printed when base64 decoding raises. -/
def errKeyDecode : List Char := "Error decoding key".toList

/-- The key handling in `main` of `dlp.py` (mirrored in `main.py`): the
guard `if args.key:` is Python truthiness, so an absent *or empty* key
string is skipped entirely (no decoding, no validation, `key_bytes` stays
`None`); a nonempty key argument is base64-decoded and the program exits
with an error unless the decoded length is 32 or 64 bytes. `Except.error`
models `exit(1)`. -/
def decodeKeyArg : Option (List Char) → Except (List Char) (Option (List Nat))
  | none => Except.ok none
  | some [] => Except.ok none
  | some (c :: cs) =>
    match b64decode (c :: cs) with
    | none => Except.error errKeyDecode
    | some kb =>
      if kb.length = 32 ∨ kb.length = 64 then Except.ok (some kb)
      else Except.error errKeyLength

/-- Main flow of `dlp.py` after argument parsing and file reading: the key
is decoded and validated first; only on success is the deidentify request
assembled and handed to the external service. An `Except.error` result means
the program exited before any request existed. -/
def dlp_main (project_id text : List Char) (keyArg : Option (List Char))
    (hotwords exclusions : Option (List (List Char))) :
    Except (List Char) DlpRequest :=
  match decodeKeyArg keyArg with
  | Except.error e => Except.error e
  | Except.ok kb =>
    Except.ok (deidentify_request project_id text kb (some (hotwordsArg hotwords)) exclusions)

/-- Modelled from the spec: the keyed Hash transform (the
`crypto_hash_config` with an unwrapped key) is performed by the external DLP
service, which the spec describes as a cryptographic digest using the
configured key as HMAC key material; the repository only assembles the
request selecting it. -/
def keyedHashToken (key : List Nat) (span_text : List Char) : List Char :=
  bytesToHex (hmacSha256 key (utf8Bytes span_text))

theorem disjointE_symm {a b : Entity} (h : DisjointE a b) : DisjointE b a := h.symm

/-- Substituting the spans rightmost-first, as `remove_pii` does, produces
the reference splice: each span is replaced by the token of its *original*
slice, and the text between spans is untouched. -/
theorem foldr_redact_eq_splice (tok : List Char → List Char) (text : List Char) :
    ∀ (es : List Entity) (pos : Nat), wfSpans text.length pos es →
      es.foldr (fun e acc => redactStep tok acc e) text =
        text.take pos ++ spliceFrom tok text pos es := by
  intro es
  induction es with
  | nil => intro pos _; simp [spliceFrom]
  | cons e rest ih =>
    intro pos h
    obtain ⟨hpb, hbe, hel, hrest⟩ := h
    have hfold : rest.foldr (fun e acc => redactStep tok acc e) text =
        text.take e.endOffset ++ spliceFrom tok text e.endOffset rest := ih e.endOffset hrest
    set P := text.take e.endOffset with hPdef
    set S := spliceFrom tok text e.endOffset rest with hSdef
    have hP : P.length = e.endOffset := by
      simp [hPdef, List.length_take]
      omega
    have hbP : e.beginOffset ≤ P.length := by omega
    simp only [List.foldr_cons, hfold]
    show redactStep tok (P ++ S) e = _
    have h1 : (P ++ S).take e.beginOffset = text.take e.beginOffset := by
      rw [List.take_append_of_le_length hbP, hPdef, List.take_take]
      congr 1
      omega
    have h2 : (P ++ S).drop e.endOffset = S := List.drop_left' hP
    have h3 : pySlice (P ++ S) e.beginOffset e.endOffset =
        pySlice text e.beginOffset e.endOffset := by
      unfold pySlice
      rw [List.drop_append_of_le_length hbP]
      have hlen : (P.drop e.beginOffset).length = e.endOffset - e.beginOffset := by
        simp [List.length_drop, hP]
      have hsum : e.beginOffset + (e.endOffset - e.beginOffset) = e.endOffset := by omega
      rw [List.take_append_of_le_length (le_of_eq hlen.symm), List.take_drop, hsum,
        List.take_drop, hsum, hPdef, List.take_take, Nat.min_self]
    show (P ++ S).take e.beginOffset ++
        tok (pySlice (P ++ S) e.beginOffset e.endOffset) ++ (P ++ S).drop e.endOffset = _
    rw [h1, h2, h3]
    show _ = text.take pos ++ (pySlice text pos e.beginOffset ++
      tok (pySlice text e.beginOffset e.endOffset) ++ S)
    have h4 : text.take pos ++ pySlice text pos e.beginOffset = text.take e.beginOffset := by
      unfold pySlice
      rw [← List.take_add]
      congr 1
      omega
    rw [← List.append_assoc, ← List.append_assoc, h4]

/-- The descending sort is a permutation of the input entities. -/
theorem sortEntitiesDesc_perm (es : List Entity) : List.Perm (sortEntitiesDesc es) es :=
  List.perm_insertionSort _ es

/-- The reversal of the descending sort is ascending by begin offset. -/
theorem sortEntitiesDesc_reverse_sorted (es : List Entity) :
    ((sortEntitiesDesc es).reverse).Pairwise (fun a b => a.beginOffset ≤ b.beginOffset) := by
  rw [List.pairwise_reverse]
  exact List.sorted_insertionSort _ es

/-- Ascending, pairwise-disjoint, in-bounds, nonempty spans are well-formed
from any position at or before the first begin offset. -/
theorem wf_of_sorted_disjoint (len : Nat) :
    ∀ (asc : List Entity),
      asc.Pairwise (fun a b => a.beginOffset ≤ b.beginOffset) →
      asc.Pairwise DisjointE →
      (∀ e ∈ asc, e.beginOffset < e.endOffset ∧ e.endOffset ≤ len) →
      ∀ pos, (∀ e ∈ asc, pos ≤ e.beginOffset) → wfSpans len pos asc := by
  intro asc
  induction asc with
  | nil => intro _ _ _ _ _; trivial
  | cons e rest ih =>
    intro hsort hdisj hb pos hpos
    have hbe := hb e (List.mem_cons_self e rest)
    refine ⟨hpos e (List.mem_cons_self e rest), le_of_lt hbe.1, hbe.2, ?_⟩
    apply ih (List.Pairwise.of_cons hsort) (List.Pairwise.of_cons hdisj)
      (fun f hf => hb f (List.mem_cons_of_mem e hf))
    intro f hf
    rcases (List.pairwise_cons.mp hdisj).1 f hf with h | h
    · exact h
    · have h1 := (List.pairwise_cons.mp hsort).1 f hf
      have h2 := (hb f (List.mem_cons_of_mem e hf)).1
      omega

/-- Length accounting for the reference splice. -/
theorem spliceFrom_length (tok : List Char → List Char) (text : List Char) :
    ∀ (es : List Entity) (pos : Nat), pos ≤ text.length → wfSpans text.length pos es →
      (spliceFrom tok text pos es).length + pos +
          (es.map fun e => e.endOffset - e.beginOffset).sum =
        text.length +
          (es.map fun e => (tok (pySlice text e.beginOffset e.endOffset)).length).sum := by
  intro es
  induction es with
  | nil => intro pos hp _; simp [spliceFrom]; omega
  | cons e rest ih =>
    intro pos hp h
    obtain ⟨hpb, hbe, hel, hrest⟩ := h
    have hIH := ih e.endOffset hel hrest
    have hgap : (pySlice text pos e.beginOffset).length = e.beginOffset - pos := by
      simp [pySlice, List.length_take, List.length_drop]
      omega
    simp only [spliceFrom, List.length_append, List.map_cons, List.sum_cons, hgap]
    omega

/-- Stripping the case-insensitive wrapper recovers the joined pattern. -/
theorem stripCIWrap_ciWrap (p : List Char) : stripCIWrap (ciWrap p) = p := by
  show ((ciWrap p).drop 5).take (((ciWrap p).drop 5).length - 6) = p
  have h : (ciWrap p).drop 5 = p ++ [')', '(', '?', '-', 'i', ')'] := by
    simp [ciWrap]
  rw [h]
  rw [List.take_left' (by simp)]

/-- Splitting a bar-free string on `|` yields the string itself. -/
theorem splitBarAux_nobar (x : List Char) (h : '|' ∉ x) : splitBarAux x = (x, []) := by
  induction x with
  | nil => rfl
  | cons c rest ih =>
    have hc : c ≠ '|' := fun hc => h (hc ▸ List.mem_cons_self c rest)
    have hr : '|' ∉ rest := fun hr => h (List.mem_cons_of_mem c hr)
    simp [splitBarAux, ih hr, hc]

/-- Splitting after a bar-free segment and a bar peels off the segment. -/
theorem splitBarAux_append (x t : List Char) (h : '|' ∉ x) :
    splitBarAux (x ++ '|' :: t) = (x, splitBar t) := by
  induction x with
  | nil => simp [splitBarAux, splitBar]
  | cons c rest ih =>
    have hc : c ≠ '|' := fun hc => h (hc ▸ List.mem_cons_self c rest)
    have hr : '|' ∉ rest := fun hr => h (List.mem_cons_of_mem c hr)
    simp [splitBarAux, ih hr, hc]

/-- Splitting on `|` undoes `"|".join` for bar-free segments. -/
theorem splitBar_joinBar : ∀ (xs : List (List Char)), xs ≠ [] →
    (∀ p ∈ xs, '|' ∉ p) → splitBar (joinBar xs) = xs := by
  intro xs
  induction xs with
  | nil => intro h; exact absurd rfl h
  | cons x rest ih =>
    intro _ hb
    cases rest with
    | nil =>
      simp [joinBar, splitBar, splitBarAux_nobar x (hb x (List.mem_cons_self x []))]
    | cons y ys =>
      have hx : '|' ∉ x := hb x (List.mem_cons_self x (y :: ys))
      have hrest : ∀ p ∈ y :: ys, '|' ∉ p := fun p hp => hb p (List.mem_cons_of_mem x hp)
      have hjb : joinBar (x :: y :: ys) = x ++ '|' :: joinBar (y :: ys) := rfl
      rw [hjb]
      have := splitBarAux_append x (joinBar (y :: ys)) hx
      simp [splitBar, this]
      have hih := ih (by simp) hrest
      simpa [splitBar] using hih

/-- The SHA-256 digest always has 32 bytes. -/
theorem sha256_length (msg : List Nat) : (sha256 msg).length = 32 := by
  simp [sha256, be4]

/-- Every byte of a big-endian four-byte encoding is below 256. -/
theorem be4_lt (x : Nat) : ∀ b ∈ be4 x, b < 256 := by
  intro b hb
  simp only [be4, List.mem_cons, List.not_mem_nil, or_false] at hb
  rcases hb with h | h | h | h <;> subst h <;> exact Nat.mod_lt _ (by omega)

/-- Every byte of the SHA-256 digest is below 256. -/
theorem sha256_bytes_lt (msg : List Nat) : ∀ b ∈ sha256 msg, b < 256 := by
  intro b hb
  unfold sha256 at hb
  simp only [List.mem_append, or_assoc] at hb
  rcases hb with h | h | h | h | h | h | h | h <;> exact be4_lt _ b h

/-- Hex rendering doubles the length. -/
theorem bytesToHex_length (bs : List Nat) : (bytesToHex bs).length = 2 * bs.length := by
  induction bs with
  | nil => rfl
  | cons b rest ih => simp [bytesToHex, ih]; omega

/-- The hex digest of SHA-256 has 64 characters. -/
theorem sha256Hex_length (msg : List Nat) : (sha256Hex msg).length = 64 := by
  rw [sha256Hex, bytesToHex_length, sha256_length]

/-- Hex digits of values below 16 are lowercase hex characters. -/
theorem hexChar_isHexDigit : ∀ n < 16, isHexDigitCh (hexChar n) = true := by decide

/-- Every character of the hex rendering of bytes is a hex digit. -/
theorem bytesToHex_isHexDigit :
    ∀ (bs : List Nat), (∀ b ∈ bs, b < 256) → ∀ c ∈ bytesToHex bs, isHexDigitCh c = true := by
  intro bs
  induction bs with
  | nil => intro _ c hc; simp [bytesToHex] at hc
  | cons b rest ih =>
    intro hb c hc
    have hblt : b < 256 := hb b (List.mem_cons_self b rest)
    simp only [bytesToHex, List.mem_cons] at hc
    rcases hc with h | h | h
    · exact h ▸ hexChar_isHexDigit (b / 16) (by omega)
    · exact h ▸ hexChar_isHexDigit (b % 16) (by omega)
    · exact ih (fun x hx => hb x (List.mem_cons_of_mem b hx)) c h

/-- C1. The rewriter applies substitutions in descending order of span start
(rightmost first, the order `sortEntitiesDesc` establishes), the redacted
text equals the reference splice — every character outside the spans is
unchanged and in input order, each span replaced by the token of its
original slice — and the output length obeys
`len(text) - sum(span lengths) + sum(token lengths)`. -/
theorem c1_offset_safety (tok : List Char → List Char) (text : List Char)
    (es : List Entity)
    (hdisj : es.Pairwise DisjointE)
    (hb : ∀ e ∈ es, e.beginOffset < e.endOffset ∧ e.endOffset ≤ text.length) :
    remove_pii_with tok text es =
      spliceFrom tok text 0 ((sortEntitiesDesc es).reverse) ∧
    (remove_pii_with tok text es).length +
        (es.map fun e => e.endOffset - e.beginOffset).sum =
      text.length +
        (es.map fun e => (tok (pySlice text e.beginOffset e.endOffset)).length).sum := by
  have hperm : List.Perm ((sortEntitiesDesc es).reverse) es :=
    ((sortEntitiesDesc es).reverse_perm).trans (sortEntitiesDesc_perm es)
  have hwf : wfSpans text.length 0 ((sortEntitiesDesc es).reverse) := by
    apply wf_of_sorted_disjoint text.length _ (sortEntitiesDesc_reverse_sorted es)
    · exact (List.Perm.pairwise_iff (fun h => disjointE_symm h) hperm).mpr hdisj
    · exact fun f hf => hb f (hperm.mem_iff.mp hf)
    · exact fun f _ => Nat.zero_le _
  have hmain : remove_pii_with tok text es =
      spliceFrom tok text 0 ((sortEntitiesDesc es).reverse) := by
    have hrr : sortEntitiesDesc es = ((sortEntitiesDesc es).reverse).reverse := by
      rw [List.reverse_reverse]
    rw [remove_pii_with, hrr, List.foldl_reverse]
    have := foldr_redact_eq_splice tok text ((sortEntitiesDesc es).reverse) 0 hwf
    simpa using this
  refine ⟨hmain, ?_⟩
  have hlen := spliceFrom_length tok text ((sortEntitiesDesc es).reverse) 0
    (Nat.zero_le _) hwf
  rw [hmain]
  have hs1 : (((sortEntitiesDesc es).reverse).map fun e =>
      e.endOffset - e.beginOffset).sum = (es.map fun e => e.endOffset - e.beginOffset).sum :=
    (hperm.map _).sum_eq
  have hs2 : (((sortEntitiesDesc es).reverse).map fun e =>
      (tok (pySlice text e.beginOffset e.endOffset)).length).sum =
      (es.map fun e => (tok (pySlice text e.beginOffset e.endOffset)).length).sum :=
    (hperm.map _).sum_eq
  omega

/-- Concrete instance of C1 at a two-span document. -/
theorem c1_offset_safety_witness :
    remove_pii_with (fun s => 'X' :: s) ("abcdef".toList)
        [⟨4, 5, "B".toList⟩, ⟨1, 3, "A".toList⟩] =
      spliceFrom (fun s => 'X' :: s) ("abcdef".toList) 0
        ((sortEntitiesDesc [⟨4, 5, "B".toList⟩, ⟨1, 3, "A".toList⟩]).reverse) ∧
    (remove_pii_with (fun s => 'X' :: s) ("abcdef".toList)
        [⟨4, 5, "B".toList⟩, ⟨1, 3, "A".toList⟩]).length +
        (([⟨4, 5, "B".toList⟩, ⟨1, 3, "A".toList⟩] : List Entity).map
          fun e => e.endOffset - e.beginOffset).sum =
      ("abcdef".toList).length +
        (([⟨4, 5, "B".toList⟩, ⟨1, 3, "A".toList⟩] : List Entity).map
          fun e => ((fun s => 'X' :: s) (pySlice ("abcdef".toList)
            e.beginOffset e.endOffset)).length).sum :=
  c1_offset_safety (fun s => 'X' :: s) ("abcdef".toList)
    [⟨4, 5, "B".toList⟩, ⟨1, 3, "A".toList⟩] (by decide) (by decide)

/-- C2 counterexample: the digest component of `hash_pii` does not depend on
the entity type — two different entity types over the same span text receive
the very same digest `a8cfcd74`, so the digest is not salted with the entity
type. -/
theorem c2_unsalted_digest_cex :
    Presidio.hash_pii ("John".toList) ("PERSON".toList) = "[PERSON:a8cfcd74]".toList ∧
    Presidio.hash_pii ("John".toList) ("LOCATION".toList) = "[LOCATION:a8cfcd74]".toList ∧
    ("PERSON".toList : List Char) ≠ "LOCATION".toList := by decide

/-- C2 amended: the token is `[entity_type:d]` where `d` is the first eight
lowercase hex characters of the unkeyed SHA-256 digest of the span text
alone; `d` is independent of the entity type, which appears only as the
prefix of the token. -/
theorem c2_token_form (text : List Char) :
    ∃ d : List Char,
      d = (sha256Hex (utf8Bytes text)).take 8 ∧
      (∀ t2 : List Char,
        Presidio.hash_pii text t2 = '[' :: (t2 ++ ':' :: (d ++ [']'])) ∧
        Gliner.hash_pii text t2 = '[' :: (t2 ++ ':' :: (d ++ [']']))) ∧
      d.length = 8 ∧
      ∀ c ∈ d, isHexDigitCh c = true := by
  refine ⟨(sha256Hex (utf8Bytes text)).take 8, rfl, fun t2 => ⟨rfl, rfl⟩, ?_, ?_⟩
  · rw [List.length_take, sha256Hex_length]
    decide
  · intro c hc
    exact bytesToHex_isHexDigit (sha256 (utf8Bytes text))
      (sha256_bytes_lt (utf8Bytes text)) c (List.take_subset 8 _ hc)

/-- C3 counterexample: the hotword rule the program builds carries a *fixed*
likelihood adjustment: a finding in the window has its likelihood set to
`VERY_UNLIKELY`, not reduced by one severity level (`VERY_LIKELY` would have
become `LIKELY`), and a second application changes nothing. -/
theorem c3_fixed_likelihood_cex :
    (deidentify_request ("p".toList) ("t".toList) none (some defaultHotwords) none).ruleSet =
      [Rule.hotword ⟨"(?i)(foo|bar)(?-i)".toList, Likelihood.VERY_UNLIKELY, 1⟩] ∧
    applyRule (fun _ => true)
        [⟨4, "John Doe".toList, "PERSON_NAME".toList, Likelihood.VERY_LIKELY⟩]
        (Rule.hotword ⟨"(?i)(foo|bar)(?-i)".toList, Likelihood.VERY_UNLIKELY, 1⟩) =
      [⟨4, "John Doe".toList, "PERSON_NAME".toList, Likelihood.VERY_UNLIKELY⟩] ∧
    reduceOneLevel Likelihood.VERY_LIKELY = Likelihood.LIKELY ∧
    Likelihood.VERY_UNLIKELY ≠ Likelihood.LIKELY := by decide

/-- C3 amended: whenever hotwords are supplied, the built rule fixes the
likelihood of in-window findings to `VERY_UNLIKELY` (window one token
before); the adjustment is constant, hence idempotent — overlapping windows
do not compound — and the code configures no acceptance threshold. -/
theorem c3_fixed_likelihood (pid text : List Char) (kb : Option (List Nat))
    (exc : Option (List (List Char))) (h : List Char) (hs : List (List Char))
    (inW : Nat → Bool) (fs : List Finding) :
    (deidentify_request pid text kb (some (h :: hs)) exc).ruleSet =
      Rule.hotword ⟨ciWrap (joinBar (h :: hs)), Likelihood.VERY_UNLIKELY, 1⟩ ::
        buildRules none exc ∧
    applyRule inW fs
        (Rule.hotword ⟨ciWrap (joinBar (h :: hs)), Likelihood.VERY_UNLIKELY, 1⟩) =
      fs.map (fun f => if inW f.start
        then { f with likelihood := Likelihood.VERY_UNLIKELY } else f) ∧
    applyRule inW
        (applyRule inW fs
          (Rule.hotword ⟨ciWrap (joinBar (h :: hs)), Likelihood.VERY_UNLIKELY, 1⟩))
        (Rule.hotword ⟨ciWrap (joinBar (h :: hs)), Likelihood.VERY_UNLIKELY, 1⟩) =
      applyRule inW fs
        (Rule.hotword ⟨ciWrap (joinBar (h :: hs)), Likelihood.VERY_UNLIKELY, 1⟩) := by
  refine ⟨by simp [deidentify_request, buildRules], rfl, ?_⟩
  simp only [applyRule, List.map_map]
  apply List.map_congr_left
  intro f _
  by_cases hw : inW f.start <;> simp [hw]

/-- C4. The transform is a pure function of span text and entity type: the
two `hash_pii` implementations agree everywhere, identical inputs always
produce identical tokens, and (for the spec-modelled keyed Hash of the DLP
request) changing the key changes the token at concrete distinct keys. -/
theorem c4_determinism :
    (∀ s t : List Char, Gliner.hash_pii s t = Presidio.hash_pii s t) ∧
    (∀ s1 t1 s2 t2 : List Char, s1 = s2 → t1 = t2 →
      Presidio.hash_pii s1 t1 = Presidio.hash_pii s2 t2) ∧
    (keyedHashToken (List.replicate 32 1) ("John Doe".toList) ≠
        keyedHashToken (List.replicate 32 2) ("John Doe".toList) ∧
      (List.replicate 32 1 : List Nat) ≠ List.replicate 32 2) := by
  refine ⟨fun s t => rfl, ?_, by decide⟩
  intro s1 t1 s2 t2 hs ht
  rw [hs, ht]

/-- Concrete instance of C4's determinism at equal inputs. -/
theorem c4_determinism_witness :
    Presidio.hash_pii ("John".toList) ("PERSON".toList) =
      Presidio.hash_pii ("John".toList) ("PERSON".toList) :=
  c4_determinism.2.1 ("John".toList) ("PERSON".toList) ("John".toList) ("PERSON".toList)
    rfl rfl

/-- C5 counterexample: a caller-supplied `--key ""` decodes to zero bytes —
a length not in {32, 64} — yet the program does not fail: the truthiness
guard `if args.key:` skips decoding and validation entirely, and `main`
proceeds to assemble the deidentify request with a transient key. -/
theorem c5_empty_key_cex :
    b64decode [] = some [] ∧
    ([] : List Nat).length ≠ 32 ∧ ([] : List Nat).length ≠ 64 ∧
    dlp_main ("p".toList) ("t".toList) (some []) none none =
      Except.ok (deidentify_request ("p".toList) ("t".toList) none
        (some (hotwordsArg none)) none) ∧
    (deidentify_request ("p".toList) ("t".toList) none
      (some (hotwordsArg none)) none).cryptoKey =
      CryptoKey.transient ("dlp-generated-key".toList) :=
  ⟨by decide, by decide, by decide, rfl, by decide⟩

/-- C5 amended: for a *nonempty* key argument, `main` exits with the
key-length error before any request exists when the decoded length is not 32
or 64 bytes, and otherwise proceeds to assemble the deidentify request with
the unwrapped key; an empty key string is skipped by the truthiness guard
`if args.key:` and the program proceeds with a transient key instead of
failing. -/
theorem c5_key_validation (pid text : List Char)
    (hw exc : Option (List (List Char))) (c : Char) (cs : List Char) (kb : List Nat)
    (hdec : b64decode (c :: cs) = some kb) :
    (¬(kb.length = 32 ∨ kb.length = 64) →
      dlp_main pid text (some (c :: cs)) hw exc = Except.error errKeyLength) ∧
    ((kb.length = 32 ∨ kb.length = 64) →
      dlp_main pid text (some (c :: cs)) hw exc =
        Except.ok (deidentify_request pid text (some kb)
          (some (hotwordsArg hw)) exc)) ∧
    dlp_main pid text (some []) hw exc =
      Except.ok (deidentify_request pid text none (some (hotwordsArg hw)) exc) := by
  refine ⟨?_, ?_, ?_⟩
  · intro h
    simp [dlp_main, decodeKeyArg, hdec, h]
  · intro h
    simp [dlp_main, decodeKeyArg, hdec, h]
  · simp [dlp_main, decodeKeyArg]

/-- Concrete instance of C5's amended statement: the nonempty four-character
key argument decodes to three bytes and is rejected. -/
theorem c5_key_validation_witness :
    dlp_main ("p".toList) ("t".toList) (some ('A' :: "AAA".toList)) none none =
      Except.error errKeyLength :=
  (c5_key_validation ("p".toList) ("t".toList) none none 'A' ("AAA".toList) [0, 0, 0]
    (by decide)).1 (by decide)

/-- C6 counterexample: with no key supplied, the Presidio/GLiNER and
Comprehend tokens are fixed values of the span text alone —
`hash_pii("John","PERSON")` and the Comprehend token of `"John"` are the
constants below in every run, so they are reproducible across process runs
rather than derived from a transient run-scoped key. -/
theorem c6_reproducible_cex :
    Presidio.hash_pii ("John".toList) ("PERSON".toList) = "[PERSON:a8cfcd74]".toList ∧
    hashedToken ("John".toList) =
      "qM_NdIMgBJUbRAjNsKXbzYx-UtQ_f-JEv3IFguBSQdo=".toList := by decide

/-- C6 amended: only the DLP pipeline requests a transient service-side key
(named `dlp-generated-key`) when no key — or an empty key — is supplied;
with a nonempty key it requests that unwrapped key instead. -/
theorem c6_transient_key (pid text : List Char)
    (hw exc : Option (List (List Char))) :
    (deidentify_request pid text none hw exc).cryptoKey =
      CryptoKey.transient ("dlp-generated-key".toList) ∧
    (deidentify_request pid text (some []) hw exc).cryptoKey =
      CryptoKey.transient ("dlp-generated-key".toList) ∧
    ∀ (b : Nat) (bs : List Nat),
      (deidentify_request pid text (some (b :: bs)) hw exc).cryptoKey =
        CryptoKey.unwrapped (b :: bs) := by
  exact ⟨rfl, rfl, fun b bs => rfl⟩

/-- C7. The exclusion rule is the last rule of the built rule set (after the
hotword rule when present), and after the rule set is applied no surviving
finding's quoted text matches any exclusion pattern case-insensitively,
whatever its likelihood. -/
theorem c7_exclusion_veto (pid text : List Char) (kb : Option (List Nat))
    (hw : Option (List (List Char))) (x : List Char) (xs : List (List Char))
    (inW : Nat → Bool) (findings : List Finding)
    (hbar : ∀ q ∈ x :: xs, '|' ∉ q) :
    (∃ pre : List Rule,
      (deidentify_request pid text kb hw (some (x :: xs))).ruleSet =
        pre ++ [Rule.exclusion ⟨dlpInfoTypes, true, ciWrap (joinBar (x :: xs))⟩] ∧
      ∀ r ∈ pre, ∃ hr : HotwordRule, r = Rule.hotword hr) ∧
    ∀ g ∈ applyRules
        ((deidentify_request pid text kb hw (some (x :: xs))).ruleSet) inW findings,
      ∀ p ∈ x :: xs, eqCI p g.quote = false := by
  have hsplit : splitBar (stripCIWrap (ciWrap (joinBar (x :: xs)))) = x :: xs := by
    rw [stripCIWrap_ciWrap]
    exact splitBar_joinBar (x :: xs) (by simp) hbar
  constructor
  · refine ⟨buildRules hw none, ?_, ?_⟩
    · cases hw with
      | none => simp [deidentify_request, buildRules]
      | some l =>
        cases l with
        | nil => simp [deidentify_request, buildRules]
        | cons a as => simp [deidentify_request, buildRules]
    · intro r hr
      cases hw with
      | none => simp [buildRules] at hr
      | some l =>
        cases l with
        | nil => simp [buildRules] at hr
        | cons a as =>
          simp [buildRules] at hr
          exact ⟨_, hr⟩
  · intro g hg p hp
    have hrs : (deidentify_request pid text kb hw (some (x :: xs))).ruleSet =
        buildRules hw none ++
          [Rule.exclusion ⟨dlpInfoTypes, true, ciWrap (joinBar (x :: xs))⟩] := by
      cases hw with
      | none => simp [deidentify_request, buildRules]
      | some l =>
        cases l with
        | nil => simp [deidentify_request, buildRules]
        | cons a as => simp [deidentify_request, buildRules]
    rw [hrs] at hg
    unfold applyRules at hg
    rw [List.foldl_append] at hg
    simp only [List.foldl_cons, List.foldl_nil, applyRule] at hg
    have hmem := List.mem_filter.mp hg
    have hnot := hmem.2
    by_contra hq
    have hq2 : eqCI p g.quote = true := by
      cases he : eqCI p g.quote with
      | false => exact absurd he hq
      | true => rfl
    have hmatch : ciAltsMatch (ciWrap (joinBar (x :: xs))) g.quote = true := by
      unfold ciAltsMatch
      rw [hsplit]
      exact List.any_eq_true.mpr ⟨p, hp, hq2⟩
    simp [hmatch] at hnot

/-- Concrete instance of C7: the surviving finding quoting `Acme` matches no
exclusion pattern (the finding quoting `Example Corp` was vetoed). -/
theorem c7_exclusion_veto_witness :
    eqCI ("Example Corp".toList)
      (Finding.mk 30 ("Acme".toList) ("ORGANIZATION_NAME".toList)
        Likelihood.POSSIBLE).quote = false :=
  (c7_exclusion_veto ("p".toList) ("t".toList) none none
      ("Example Corp".toList) [] (fun _ => false)
      [⟨0, "Example Corp".toList, "ORGANIZATION_NAME".toList, Likelihood.VERY_LIKELY⟩,
       ⟨30, "Acme".toList, "ORGANIZATION_NAME".toList, Likelihood.POSSIBLE⟩]
      (by decide)).2
    (Finding.mk 30 ("Acme".toList) ("ORGANIZATION_NAME".toList) Likelihood.POSSIBLE)
    (by decide) ("Example Corp".toList) (by decide)

/-- C8 counterexample: a zero-length span (start = end = 1) in `"ab"` is not
rejected — `remove_pii` inserts the token of the empty string at position 1
and returns a string. -/
theorem c8_zero_length_cex :
    remove_pii ("ab".toList) [⟨1, 1, "NAME".toList⟩] =
      "a47DEQpj8HBSa-_TImW-5JCeuQeRkm5NMpJWZG3hSuFU=b".toList := by decide

/-- C8 amended: zero-length spans are processed like any other span — the
hash token of the empty slice is inserted at the span position; no
`MalformedSpan` error exists in the code. -/
theorem c8_zero_length_processed (text : List Char) (e : Entity)
    (hz : e.beginOffset = e.endOffset) :
    remove_pii text [e] =
      text.take e.beginOffset ++ hashedToken [] ++ text.drop e.beginOffset := by
  unfold remove_pii remove_pii_with sortEntitiesDesc
  simp only [List.insertionSort, List.orderedInsert, List.foldl_cons, List.foldl_nil]
  unfold redactStep pySlice
  rw [← hz]
  simp

/-- Concrete instance of C8's amended statement. -/
theorem c8_zero_length_processed_witness :
    remove_pii ("ab".toList) [⟨1, 1, "OTHER".toList⟩] =
      ("ab".toList).take 1 ++ hashedToken [] ++ ("ab".toList).drop 1 :=
  c8_zero_length_processed ("ab".toList) ⟨1, 1, "OTHER".toList⟩ rfl

/-- C9. When the caller passes no hotword list, `main` defaults it to
`["foo", "bar"]`, so the built rule set contains the case-insensitive
hotword rule `(?i)(foo|bar)(?-i)` with window one token before, forcing the
likelihood of every in-window finding to the fixed value `VERY_UNLIKELY`. -/
theorem c9_default_hotwords (pid text : List Char) (kb : Option (List Nat))
    (exc : Option (List (List Char))) (inW : Nat → Bool) (fs : List Finding) :
    hotwordsArg none = ["foo".toList, "bar".toList] ∧
    (deidentify_request pid text kb (some (hotwordsArg none)) exc).ruleSet =
      Rule.hotword ⟨"(?i)(foo|bar)(?-i)".toList, Likelihood.VERY_UNLIKELY, 1⟩ ::
        buildRules none exc ∧
    applyRule inW fs
        (Rule.hotword ⟨"(?i)(foo|bar)(?-i)".toList, Likelihood.VERY_UNLIKELY, 1⟩) =
      fs.map (fun f => if inW f.start
        then { f with likelihood := Likelihood.VERY_UNLIKELY } else f) := by
  refine ⟨rfl, ?_, rfl⟩
  simp [deidentify_request, buildRules, hotwordsArg, defaultHotwords]
  rfl

/-- C10. Rewriting with an empty entity list is the identity, for the
Comprehend rewriter and for any token function. -/
theorem c10_empty_entities_identity (text : List Char) :
    remove_pii text [] = text ∧
    ∀ tok : List Char → List Char, remove_pii_with tok text [] = text :=
  ⟨rfl, fun tok => rfl⟩

end Redact
